import Mathlib

/-!
Verification of the ATSNE repository's core data layer against its
natural-language specification.

The development shallowly embeds the TypeScript sources:
  * `data-provider.ts` (src/unnamed/part_001): `streamParse`, `parseTensors`,
    `analyzeMetadata`, `parseMetadata`;
  * `data.ts`: `DataSet.computeSequences`, `getSubset`, `mergeMetadata`,
    `projectTSNE` (run start and scheduled tick), `perturbTsne`, `stopTSNE`;
  * `knn.ts`: `findKNN`, `findKNNGPUCosine`.

JavaScript strings are modelled as `String`/`List Char` (one byte per
character), JavaScript numbers as `ℚ` (with `Option ℚ` where `NaN` must be
distinguished), JavaScript objects used as string-keyed records as
association lists, and the mutable object heap — where aliasing matters —
as an explicit store indexed by natural-number references.  Asynchronous
loops (`requestAnimationFrame` scheduling, the chunked reader) are modelled
as fuel-indexed recursion: a result of `none` means the loop has not
finished within the given fuel.
-/

/-! ### JavaScript string and number primitives -/

/-- Whitespace trimming of `String.prototype.trim`, on character lists. -/
def jsTrim (l : List Char) : List Char :=
  ((l.dropWhile Char.isWhitespace).reverse.dropWhile Char.isWhitespace).reverse

/-- Model of `s.trim()` on strings. -/
def trimStr (s : String) : String := (jsTrim s.toList).asString

/-- Numeric value of a list of decimal digit characters. -/
def digitsVal (l : List Char) : Nat :=
  l.foldl (fun acc c => acc * 10 + (c.toNat - 48)) 0

/-- JavaScript `Number(string)` conversion, `none` standing for `NaN`.
Models the decimal forms `[+-]?digits`, `[+-]?digits.digits?`,
`[+-]?.digits` and the empty (all-whitespace) string, which converts
to `0`; exotic forms (hex, exponents, `Infinity`) are out of scope of the
parsed files. -/
def jsNumber (s : String) : Option ℚ :=
  let t := jsTrim s.toList
  if t = [] then some 0 else
  let sl : Int × List Char :=
    match t with
    | '-' :: r => (-1, r)
    | '+' :: r => (1, r)
    | _ => (1, t)
  let intP := sl.2.takeWhile Char.isDigit
  let rest := sl.2.dropWhile Char.isDigit
  match rest with
  | [] => if intP = [] then none else some (Rat.divInt (sl.1 * digitsVal intP) 1)
  | '.' :: frac =>
    if frac.all Char.isDigit ∧ (intP ≠ [] ∨ frac ≠ []) then
      some (Rat.divInt (sl.1 * (digitsVal intP * 10 ^ frac.length + digitsVal frac))
        (10 ^ frac.length))
    else none
  | _ => none

/-- Model of `String.prototype.split` with a one-character separator; like the
JavaScript function it always returns at least one (possibly empty) part. -/
def splitOnChar (delim : Char) : List Char → List (List Char)
  | [] => [[]]
  | c :: cs =>
    let r := splitOnChar delim cs
    if c = delim then [] :: r
    else
      match r with
      | h :: t => (c :: h) :: t
      | [] => [[c]]

/-- Split a string on the tab character (value/column delimiter). -/
def splitTab (s : String) : List String :=
  (splitOnChar '\t' s.toList).map List.asString

/-! ### Association-list model of string-keyed JavaScript objects -/

/-- Model of `obj[key]`, `none` when the key is absent. -/
def lookupKey {A : Type} (m : List (String × A)) (k : String) : Option A :=
  match m.find? (fun p => p.1 = k) with
  | some p => some p.2
  | none => none

/-- Model of `obj[key] = v`: overwrite the first binding of `k`, or append one. -/
def setKey {A : Type} (m : List (String × A)) (k : String) (v : A) :
    List (String × A) :=
  match m with
  | [] => [(k, v)]
  | (k', w) :: t => if k' = k then (k, v) :: t else (k', w) :: setKey t k v

/-! ### `streamParse` (data-provider.ts)

`streamParse(content, callback, chunkSize = 1000000, delim = '\n')` reads the
buffer chunk by chunk, splits each chunk on the delimiter, carries the
trailing partial record into the next chunk, and invokes the callback per
complete record.  The recursion below is a direct transcription of
`readHandler`/`readChunk`: `offset` has already been advanced by `chunkSize`
when the split is processed, `bufferSize` is `content.byteLength - 1`, and
the loop resolves only in the branch that saw at least one delimiter.
`none` means the promise has not resolved within `fuel` scheduled reads. -/

def streamParseAux (content : List Char) (chunkSize : Nat) (delim : Char) :
    Nat → Nat → List Char → Option (List (List Char))
  | 0, _, _ => none
  | fuel + 1, offset, data =>
    let chunk := (content.drop offset).take chunkSize
    let offset' := offset + chunkSize
    let parts := splitOnChar delim chunk
    let first := data ++ parts.headD []
    if parts.length = 1 then
      streamParseAux content chunkSize delim fuel offset' first
    else
      let data' := parts.getLastD []
      let emitted := first :: (parts.drop 1).dropLast
      if content.length - 1 ≤ offset' then
        some (emitted ++ if data' ≠ [] then [data'] else [])
      else
        (streamParseAux content chunkSize delim fuel offset' data').map
          (fun r => emitted ++ r)

/-- The record sequence delivered by `streamParse`, or `none` when the
parse promise has not resolved within `fuel` chunk reads. -/
def streamParse (content : String) (chunkSize : Nat) (delim : Char) (fuel : Nat) :
    Option (List (List Char)) :=
  streamParseAux content.toList chunkSize delim fuel 0 []

/-! ### Metadata values and data points (data.ts) -/

/-- A metadata value: JavaScript `string | number`. -/
inductive MDVal where
  | str : String → MDVal
  | num : ℚ → MDVal
deriving DecidableEq

/-- A point's metadata record (`PointMetadata`), a string-keyed object whose
values may also be `null`/`undefined`, modelled by `none`. -/
abbrev PointMetadata := List (String × Option MDVal)

/-- Model of `+v` on a metadata value, `none` standing for `NaN` (so `isNaN(v)`
holds exactly when this is `none`). -/
def valNum : MDVal → Option ℚ
  | .str s => jsNumber s
  | .num q => some q

/-- Model of `DataPoint` of data.ts.  `sequenceIndex` is omitted: no modelled
operation reads or writes it. -/
structure DataPoint where
  index : Nat
  vector : List ℚ
  metadata : PointMetadata
  projections : List (String × ℚ)
deriving DecidableEq

instance : Inhabited DataPoint := ⟨⟨0, [], [], []⟩⟩

/-! ### `parseTensors` (data-provider.ts)

The per-record callback of `parseTensors`, over the record sequence
delivered by `streamParse`.  A thrown `Error` is modelled as an `Except`
error value. -/

/-- Model of `Number(field)` as used when building tensor vectors.  A non-numeric
field yields `NaN`; since only vector lengths are ever inspected, `NaN`
components are modelled as `0`. -/
def jsNumberD (s : String) : ℚ := (jsNumber s).getD 0

/-- Construction of one `DataPoint` from a split record: the branch
`isNaN(row[0]) || numDim === row.length - 1` stores the first field as the
`label` metadata and parses the remainder as the vector; otherwise the
whole row is the vector. -/
def tensorLinePoint (dataLen : Nat) (numDim : Option Nat) (row : List String) : DataPoint :=
  if jsNumber (row.headD "") = none ∨ numDim = some (row.length - 1) then
    { index := dataLen
      vector := (row.drop 1).map jsNumberD
      metadata := [("label", some (.str (row.headD "")))]
      projections := [] }
  else
    { index := dataLen
      vector := row.map jsNumberD
      metadata := []
      projections := [] }

/-- The two parse failures of `parseTensors`. -/
inductive TensorParseError where
  | dimensionMismatch
  | degenerateVector
deriving DecidableEq

/-- One record of `parseTensors`: trim, skip blank records, split on the
value delimiter, build the point, establish `numDim` from the first row,
and fail on a dimension mismatch or a resolved dimensionality of at
most 1. -/
def parseTensorsStep (st : List DataPoint × Option Nat) (line : String) :
    Except TensorParseError (List DataPoint × Option Nat) :=
  let l := trimStr line
  if l = "" then .ok st else
  let row := splitTab l
  let dataPoint := tensorLinePoint st.1.length st.2 row
  let data := st.1 ++ [dataPoint]
  let numDim := st.2.getD dataPoint.vector.length
  if numDim ≠ dataPoint.vector.length then .error .dimensionMismatch
  else if numDim ≤ 1 then .error .degenerateVector
  else .ok (data, some numDim)

/-- Model of `parseTensors` over the record sequence of the tensor file. -/
def parseTensors (lines : List String) : Except TensorParseError (List DataPoint) :=
  (lines.foldlM parseTensorsStep ([], none)).map (fun st => st.1)

/-! ### `analyzeMetadata` and `parseMetadata` (data-provider.ts) -/

/-- The "too many unique values" threshold (`NUM_COLORS_COLOR_MAP`). -/
def NUM_COLORS_COLOR_MAP : Nat := 50

/-- Model of `ColumnStats` of data.ts.  The initial `min`/`max` of
`Number.POSITIVE_INFINITY`/`Number.NEGATIVE_INFINITY` are modelled by
`none`. -/
structure ColumnStats where
  name : String
  isNumeric : Bool
  tooManyUniqueValues : Bool
  uniqueEntries : Option (List (String × Nat)) := none
  min : Option ℚ
  max : Option ℚ
deriving DecidableEq

/-- The per-column working state of `analyzeMetadata`: the entry of
`columnStats` paired with the corresponding entry of `mapOfValues`. -/
structure ColSt where
  stats : ColumnStats
  map : List (String × Nat)
deriving DecidableEq

/-- The initial per-column state built by `analyzeMetadata`. -/
def initCol (name : String) : ColSt :=
  ⟨{ name := name, isNumeric := true, tooManyUniqueValues := false,
     uniqueEntries := none, min := none, max := none }, []⟩

/-- A metadata value used as a JavaScript object key (string coercion); the
parsed files only ever store `.str` values, so the `.num` rendering is
schematic. -/
def mkey : MDVal → String
  | .str s => s
  | .num q => toString q

/-- Model of `Math.min` against the running minimum (initially `+∞`, i.e. `none`). -/
def jsMin (cur : Option ℚ) (v : ℚ) : ℚ :=
  match cur with
  | none => v
  | some m => min m v

/-- Model of `Math.max` against the running maximum (initially `-∞`, i.e. `none`). -/
def jsMax (cur : Option ℚ) (v : ℚ) : ℚ :=
  match cur with
  | none => v
  | some m => max m v

/-- Model of `map[value]++` / `map[value] = 1`. -/
def bump (m : List (String × Nat)) (key : String) : List (String × Nat) :=
  match lookupKey m key with
  | some _ => m.map (fun p => if p.1 = key then (p.1, p.2 + 1) else p)
  | none => m ++ [(key, 1)]

/-- The body of `analyzeMetadata`'s inner loop for one non-missing value of
one column: record the value in the count map (unless the column is already
flagged), flag the column once the distinct count exceeds the threshold,
and update the numeric statistics. -/
def colStep (st : ColSt) (v : MDVal) : ColSt :=
  let st1 : ColSt :=
    if st.stats.tooManyUniqueValues then st
    else
      let m := bump st.map (mkey v)
      ⟨{ st.stats with tooManyUniqueValues := decide (NUM_COLORS_COLOR_MAP < m.length) }, m⟩
  match valNum v with
  | none => ⟨{ st1.stats with isNumeric := false }, st1.map⟩
  | some q =>
    ⟨{ st1.stats with min := some (jsMin st1.stats.min q),
                      max := some (jsMax st1.stats.max q) }, st1.map⟩

/-- The in-place mutation `metadata[name] = +value` performed by the same
loop body when the value is numeric. -/
def colWrite (md : PointMetadata) (name : String) (v : MDVal) : PointMetadata :=
  match valNum v with
  | none => md
  | some q => setKey md name (some (.num q))

/-- Model of `analyzeMetadata`'s inner `columnNames.forEach` over one point: walk the
columns in order, updating each column's state and mutating the record's
numeric-looking values in place. -/
def analyzePointCols : List (String × ColSt) → PointMetadata → List ColSt × PointMetadata
  | [], md => ([], md)
  | (name, st) :: rest, md =>
    match lookupKey md name with
    | some (some v) =>
      let st' := colStep st v
      let md1 := colWrite md name v
      let pr := analyzePointCols rest md1
      (st' :: pr.1, pr.2)
    | _ =>
      let pr := analyzePointCols rest md
      (st :: pr.1, pr.2)

/-- Model of `analyzeMetadata`'s outer `pointsMetadata.forEach`, returning the final
column states and the (mutated) records. -/
def analyzeFold (columnNames : List String) (pointsMetadata : List PointMetadata) :
    List ColSt × List PointMetadata :=
  pointsMetadata.foldl
    (fun acc md =>
      let pr := analyzePointCols (columnNames.zip acc.1) md
      (pr.1, acc.2 ++ [pr.2]))
    (columnNames.map initCol, [])

/-- Model of `analyzeMetadata(columnNames, pointsMetadata)`: returns the column
statistics — each with its `uniqueEntries` set from the collected count
map — together with the point records it mutated in place. -/
def analyzeMetadata (columnNames : List String) (pointsMetadata : List PointMetadata) :
    List ColumnStats × List PointMetadata :=
  let res := analyzeFold columnNames pointsMetadata
  (res.1.map (fun st => { st.stats with uniqueEntries := some st.map }), res.2)

/-- The state of `parseMetadata`'s record callback. -/
structure MetaParseState where
  pointsMetadata : List PointMetadata
  hasHeader : Bool
  lineNumber : Nat
  columnNames : List String
deriving DecidableEq

/-- Model of `parseMetadata`'s per-record callback: skip blank records; treat the
first non-blank record as a header exactly when it contains a tab,
otherwise keep the single implicit `label` column; split every other
record on tabs and normalize missing fields (`''` or absent) to `none`. -/
def parseMetadataStep (st : MetaParseState) (line : String) : MetaParseState :=
  if (trimStr line).length = 0 then st
  else if st.lineNumber = 0 ∧ '\t' ∈ line.toList then
    { st with hasHeader := true, columnNames := splitTab line,
              lineNumber := st.lineNumber + 1 }
  else
    let st0 := if st.lineNumber = 0 then { st with hasHeader := false } else st
    let rowValues := splitTab line
    let metadata : PointMetadata :=
      st0.columnNames.enum.map (fun p =>
        (p.2, match rowValues.get? p.1 with
              | none => none
              | some v => if v = "" then none else some (.str v)))
    { st0 with pointsMetadata := st0.pointsMetadata ++ [metadata],
               lineNumber := st0.lineNumber + 1 }

/-- The accumulated parse state over all records of the metadata file. -/
def metaParseRun (lines : List String) : MetaParseState :=
  lines.foldl parseMetadataStep ⟨[], false, 0, ["label"]⟩

/-- Model of `parseMetadata` over the record sequence of the metadata file: the
resolved result carries the column statistics and `pointsInfo` — the very
records `analyzeMetadata` mutated, since the JavaScript promise resolves
with the same (aliased) array. -/
def parseMetadata (lines : List String) : List ColumnStats × List PointMetadata :=
  let st := metaParseRun lines
  analyzeMetadata st.columnNames st.pointsMetadata

/-- The stream of non-missing values observed for column `n`, in point
order (the claim-side view of one column). -/
def colValues (n : String) (mds : List PointMetadata) : List MDVal :=
  mds.filterMap (fun md =>
    match lookupKey md n with
    | some (some v) => some v
    | _ => none)

/-- First occurrences of the keys of a stream, in order of first
appearance: the key set of the count map. -/
def firstSeen (ks : List String) : List String :=
  ks.foldl (fun acc k => if k ∈ acc then acc else acc ++ [k]) []

/-- One column-state update from the claim-side view: apply `colStep` when
the column has a non-missing value, otherwise leave the state unchanged. -/
def colApply (st : ColSt) (v : Option (Option MDVal)) : ColSt :=
  match v with
  | some (some x) => colStep st x
  | _ => st

/-- The record mutation performed by one pass of the inner column loop,
independent of the column statistics. -/
def metaWrite (names : List String) (md : PointMetadata) : PointMetadata :=
  names.foldl
    (fun m n =>
      match lookupKey m n with
      | some (some v) => colWrite m n v
      | _ => m)
    md

/-- The numeric components `(isNumeric, min, max)` of a column state. -/
def numericPart (st : ColSt) : Bool × Option ℚ × Option ℚ :=
  (st.stats.isNumeric, st.stats.min, st.stats.max)

/-- The numeric-tracking update of one value, independent of the
uniqueness-tracking state. -/
def numericStep (p : Bool × Option ℚ × Option ℚ) (v : MDVal) : Bool × Option ℚ × Option ℚ :=
  match valNum v with
  | none => (false, p.2.1, p.2.2)
  | some q => (p.1, some (jsMin p.2.1 q), some (jsMax p.2.2 q))

/-- Lookup of a column's statistics by column name. -/
def statsFor (stats : List ColumnStats) (n : String) : Option ColumnStats :=
  stats.find? (fun cs => cs.name = n)

/-! ### Bounded top-K selection and vector primitives

heap.ts (`KMin`) and vector.ts (`dot`, `cosDistNorm`) are code of this
repository that is not under src/; they are modelled from the spec. -/

/-- Modelled from the spec: the `KMin` bounded top-K structure of the
missing heap.ts (spec §4.1 BoundedTopK).  Entries are kept ascending by
key; `capacity` is fixed at construction. -/
structure KMin (A : Type) where
  capacity : Nat
  entries : List (ℚ × A)

/-- Modelled from the spec: `new KMin(k)`. -/
def KMin.new (A : Type) (k : Nat) : KMin A := ⟨k, []⟩

/-- Stable ascending insertion: a new item goes after items with equal
keys (ties broken by insertion order). -/
def insertAsc {A : Type} (key : ℚ) (a : A) : List (ℚ × A) → List (ℚ × A)
  | [] => [(key, a)]
  | (k', b) :: t =>
    if key < k' then (key, a) :: (k', b) :: t else (k', b) :: insertAsc key a t

/-- Modelled from the spec: `KMin.add(key, payload)` — once the structure
holds `capacity` items, a key not smaller than the largest retained key is
rejected; otherwise the largest is evicted and the new item inserted. -/
def KMin.add {A : Type} (m : KMin A) (key : ℚ) (a : A) : KMin A :=
  if m.entries.length < m.capacity then
    { m with entries := insertAsc key a m.entries }
  else
    match m.entries.getLast? with
    | none => m
    | some last =>
      if last.1 ≤ key then m
      else { m with entries := insertAsc key a m.entries.dropLast }

/-- Modelled from the spec: `KMin.getSize()`. -/
def KMin.getSize {A : Type} (m : KMin A) : Nat := m.entries.length

/-- Modelled from the spec: `KMin.getLargestKey()` — the worst retained
key, or "no bound yet" (`none`) while the structure holds fewer than
`capacity` items. -/
def KMin.getLargestKey {A : Type} (m : KMin A) : Option ℚ :=
  if m.entries.length < m.capacity then none else m.entries.getLast?.map Prod.fst

/-- Modelled from the spec: `KMin.getMinKItems()` — the retained payloads,
ascending by key. -/
def KMin.getMinKItems {A : Type} (m : KMin A) : List A := m.entries.map Prod.snd

/-- Modelled from the spec: dense dot product (vector.ts `dot`). -/
def dot (a b : List ℚ) : ℚ := (List.zipWith (fun x y => x * y) a b).sum

/-- Modelled from the spec: cosine distance of already unit-norm vectors
(vector.ts `cosDistNorm`): `1 - similarity`. -/
def cosDistNorm (a b : List ℚ) : ℚ := 1 - dot a b

/-! ### `findKNN` and `findKNNGPUCosine` (knn.ts) -/

/-- Model of `NearestEntry` of knn.ts. -/
structure NearestEntry where
  index : Nat
  dist : ℚ
deriving DecidableEq

/-- Model of `Number.MAX_VALUE`. -/
def MAX_VALUE : ℚ := Rat.divInt (17976931348623157 * 10 ^ 292) 1

/-- JavaScript `x || dflt` on an optional number: `null`, `undefined` and
`0` are all falsy. -/
def jsOr (o : Option ℚ) (dflt : ℚ) : ℚ :=
  match o with
  | none => dflt
  | some v => if v = 0 then dflt else v

/-- In-place update of one array slot (`arr[i] = f(arr[i])`). -/
def updateAt {A : Type} : List A → Nat → (A → A) → List A
  | [], _, _ => []
  | a :: t, 0, f => f a :: t
  | a :: t, n + 1, f => a :: updateAt t n f

/-- Model of `findKNN` (knn.ts): the CPU symmetric strategy.  One `KMin` per point;
every unordered pair `(i, j)`, `i < j`, computes the joint early-exit
limit `max(limitI, limitJ)` (where a limit is `MAX_VALUE` while the
corresponding structure is not yet full, and `getLargestKey() || MAX_VALUE`
once it is), evaluates the distance under that limit, and offers a
non-negative result to both points' structures. -/
def findKNN {T : Type} (dataPoints : List T) (k : Nat) (accessor : T → List ℚ)
    (dist : List ℚ → List ℚ → ℚ → ℚ) : List (List NearestEntry) :=
  let N := dataPoints.length
  let vecs := dataPoints.map accessor
  let start : List (KMin NearestEntry) := (List.range N).map (fun _ => KMin.new _ k)
  let kMins := (List.range N).foldl
    (fun km i =>
      (List.range N).foldl
        (fun km j =>
          if i < j then
            let kMinA := km.getD i (KMin.new _ k)
            let kMinB := km.getD j (KMin.new _ k)
            let limitI := if kMinA.getSize = k then jsOr kMinA.getLargestKey MAX_VALUE
                          else MAX_VALUE
            let limitJ := if kMinB.getSize = k then jsOr kMinB.getLargestKey MAX_VALUE
                          else MAX_VALUE
            let limit := max limitI limitJ
            let d := dist (vecs.getD i []) (vecs.getD j []) limit
            if 0 ≤ d then
              updateAt (updateAt km i (fun m => m.add d ⟨j, d⟩)) j (fun m => m.add d ⟨i, d⟩)
            else km
          else km)
        km)
    start
  kMins.map KMin.getMinKItems

/-- The block size of the accelerated strategy (`OPTIMAL_GPU_BLOCK_SIZE`). -/
def OPTIMAL_GPU_BLOCK_SIZE : Nat := 256

/-- One row of the accelerated strategy's block: fold the cosine distances
`1 - dot` of point `iReal` against every other point into a `KMin` (the
row of the sgemm result matrix, converted entry-wise). -/
def gpuRow (vecs : List (List ℚ)) (k : Nat) (iReal : Nat) : List NearestEntry :=
  ((List.range vecs.length).foldl
    (fun m j =>
      if j = iReal then m
      else
        let cosDist := 1 - dot (vecs.getD j []) (vecs.getD iReal [])
        m.add cosDist ⟨j, cosDist⟩)
    (KMin.new _ k)).getMinKItems

/-- The per-piece `step` recursion of `findKNNGPUCosine`.  `remaining` is
the number of pieces still to process (`numPieces - piece`, structurally
decreasing).  `failPiece` is the failure oracle: the piece at which the
hardware computation rejects, if any; on failure every partial result is
discarded and the CPU strategy is invoked on the whole input, exactly as
in the rejection handler of the source. -/
def gpuLoop {T : Type} (dataPoints : List T) (k : Nat) (accessor : T → List ℚ)
    (failPiece : Option Nat) (M modulo : Nat) :
    Nat → Nat → Nat → List (List NearestEntry) → List (List NearestEntry)
  | 0, _, _, acc => acc
  | remaining + 1, piece, offset, acc =>
    if failPiece = some piece then
      findKNN dataPoints k accessor (fun a b _ => cosDistNorm a b)
    else
      let B := if piece < modulo then M + 1 else M
      let vecs := dataPoints.map accessor
      let block := (List.range B).map (fun i => gpuRow vecs k (offset + i))
      gpuLoop dataPoints k accessor failPiece M modulo remaining (piece + 1) (offset + B)
        (acc ++ block)

/-- Model of `findKNNGPUCosine` (knn.ts): the batched accelerated strategy, with the
failure oracle `failPiece` standing for a hardware/runtime rejection during
that piece. -/
def findKNNGPUCosine {T : Type} (dataPoints : List T) (k : Nat)
    (accessor : T → List ℚ) (failPiece : Option Nat) : List (List NearestEntry) :=
  let N := dataPoints.length
  let numPieces := (N + OPTIMAL_GPU_BLOCK_SIZE - 1) / OPTIMAL_GPU_BLOCK_SIZE
  let M := N / numPieces
  let modulo := N % numPieces
  gpuLoop dataPoints k accessor failPiece M modulo numPieces 0 0 []

/-! ### Dataset state and the optimization lifecycle (data.ts) -/

/-- Modelled from the spec: the opaque optimizer engine of the missing
bh_tsne.ts, consumed through the capability interface of spec §9
(`init(neighborLists)` / `step()` / `solution()` / `perturb()` /
`dimensionality()`).  `create` is the configured engine produced by
`new TSNE(opt)` (supervision forwarding included). -/
structure EngineOps (E : Type) where
  create : E
  initData : E → List (List NearestEntry) → E
  step : E → E
  getSolution : E → List ℚ
  perturb : E → E
  getDim : E → Nat

/-- Model of `SpriteAndMetadataInfo` of data.ts (the sprite image fields are out of
scope). -/
structure SpriteAndMetadataInfo where
  stats : Option (List ColumnStats) := none
  pointsInfo : Option (List PointMetadata) := none
deriving DecidableEq

/-- Model of `TSNE_SAMPLE_SIZE`. -/
def TSNE_SAMPLE_SIZE : Nat := 10000

/-- The mutable fields of `DataSet` that the modelled operations touch.
`tsne` is the optimizer engine handle (`null` when no run is active);
`nearest`/`nearestK` are the neighbor cache and the K it was computed
for. -/
structure DataSetState (E : Type) where
  points : List DataPoint
  shuffledDataIndices : List Nat
  projections : List (String × Bool)
  nearest : Option (List (List NearestEntry))
  nearestK : Int
  tSNEIteration : Nat
  tSNEShouldPause : Bool
  tSNEShouldStop : Bool
  hasTSNERun : Bool
  spriteAndMetadataInfo : Option SpriteAndMetadataInfo
  tsne : Option E

/-- The per-point projection writes of one step: for each sampled index,
write `tsne-0`, `tsne-1` and — when the target dimensionality is 3 —
`tsne-2` from the engine's flat solution buffer. -/
def writeProjections (points : List DataPoint) (sampledIndices : List Nat)
    (result : List ℚ) (tsneDim : Nat) : List DataPoint :=
  sampledIndices.enum.foldl
    (fun pts p =>
      updateAt pts p.2 (fun dp =>
        let pr0 := setKey dp.projections "tsne-0" (result.getD (p.1 * tsneDim) 0)
        let pr1 := setKey pr0 "tsne-1" (result.getD (p.1 * tsneDim + 1) 0)
        let pr2 := if tsneDim = 3 then setKey pr1 "tsne-2" (result.getD (p.1 * tsneDim + 2) 0)
                   else pr1
        { dp with projections := pr2 }))
    points

/-- One scheduled tick of `projectTSNE`'s `step` closure.  Returns the new
state, the step-callback invocation of this tick (`some none` is the
"no iteration" call, `some (some i)` the call with iteration number `i`,
`none` no call), and whether another tick is scheduled
(`requestAnimationFrame(step)`). -/
def stepTick {E : Type} (ops : EngineOps E) (tsneDim : Nat) (s : DataSetState E) :
    DataSetState E × Option (Option Nat) × Bool :=
  if s.tSNEShouldStop then
    ({ s with projections := setKey s.projections "tsne" false,
              tsne := none,
              hasTSNERun := false },
     some none, false)
  else if s.tSNEShouldPause then
    (s, none, true)
  else
    match s.tsne with
    | none => (s, none, true)
    | some e =>
      let e2 := ops.step e
      let result := ops.getSolution e2
      let sampledIndices := s.shuffledDataIndices.take TSNE_SAMPLE_SIZE
      ({ s with points := writeProjections s.points sampledIndices result tsneDim,
                tsne := some e2,
                projections := setKey s.projections "tsne" true,
                tSNEIteration := s.tSNEIteration + 1 },
       some (some (s.tSNEIteration + 1)), true)

/-- Model of `stopTSNE()`. -/
def stopTSNE {E : Type} (s : DataSetState E) : DataSetState E :=
  { s with tSNEShouldStop := true }

/-- Model of `perturbTsne()`: meaningful only while `hasTSNERun` and an engine
handle exist; republishes the perturbed solution to the sampled points'
projections. -/
def perturbTsne {E : Type} (ops : EngineOps E) (s : DataSetState E) : DataSetState E :=
  if s.hasTSNERun then
    match s.tsne with
    | some e =>
      let e2 := ops.perturb e
      let tsneDim := ops.getDim e2
      let result := ops.getSolution e2
      let sampledIndices := s.shuffledDataIndices.take TSNE_SAMPLE_SIZE
      { s with tsne := some e2,
               points := writeProjections s.points sampledIndices result tsneDim }
    | none => s
  else s

/-- The strategy selection of `projectTSNE`'s neighbor computation:
`findKNNGPUCosine` when `KNN_GPU_ENABLED`, else `findKNN` with the
normalized cosine distance. -/
def knnCompute (gpuEnabled : Bool) (failPiece : Option Nat) (sampledData : List DataPoint)
    (k : Nat) : List (List NearestEntry) :=
  if gpuEnabled then findKNNGPUCosine sampledData k (fun d => d.vector) failPiece
  else findKNN sampledData k (fun d => d.vector) (fun a b _ => cosDistNorm a b)

/-- The run-start portion of `projectTSNE(perplexity, learningRate,
tsneDim, stepCallback)` up to the point where the step loop begins: set
`hasTSNERun`, create the engine, reset the pause/stop flags and the
iteration counter, compute `K = floor(3 * perplexity)`, reuse the cached
neighbor table only if `nearest` is non-null and its K matches, otherwise
record the new K and recompute via the KNN engine, then initialize the
engine with the neighbor lists.  The returned flag reports whether the
cached table was reused (the `Promise.resolve(this.nearest)` branch). -/
def projectTSNEStart {E : Type} (ops : EngineOps E) (gpuEnabled : Bool)
    (failPiece : Option Nat) (perplexity : ℚ) (s : DataSetState E) :
    DataSetState E × Bool :=
  let k : Int := ⌊3 * perplexity⌋
  let s1 : DataSetState E :=
    { s with hasTSNERun := true,
             tsne := some ops.create,
             tSNEShouldPause := false,
             tSNEShouldStop := false,
             tSNEIteration := 0 }
  let sampledIndices := s1.shuffledDataIndices.take TSNE_SAMPLE_SIZE
  if s1.nearest ≠ none ∧ k = s1.nearestK then
    let nearest := s1.nearest.getD []
    ({ s1 with nearest := some nearest,
               tsne := some (ops.initData ops.create nearest) }, true)
  else
    let sampledData := sampledIndices.map (fun i => s1.points.getD i default)
    let nearest := knnCompute gpuEnabled failPiece sampledData k.toNat
    ({ s1 with nearestK := k,
               nearest := some nearest,
               tsne := some (ops.initData ops.create nearest) }, false)

/-- Model of `metadata.pointsInfo.slice(0, this.points.length).forEach(...)`: assign
metadata records to points positionally; extra records are ignored, and
points beyond the records keep their metadata. -/
def assignMetadata : List DataPoint → List PointMetadata → List DataPoint
  | pts, [] => pts
  | [], _ => []
  | dp :: pts, m :: ms => { dp with metadata := m } :: assignMetadata pts ms

/-- Model of `DataSet.mergeMetadata(metadata)`: when the record count mismatches the
point count, the two explainable header-row shapes are rejected (single
column with one record too many; multiple columns with one record too few);
any other mismatch only warns.  Then the metadata is stored and, if records
exist, merged positionally (truncated) with success. -/
def mergeMetadata {E : Type} (ds : DataSetState E) (metadata : SpriteAndMetadataInfo) :
    Bool × DataSetState E :=
  let n := ds.points.length
  let reject : Bool :=
    match metadata.pointsInfo, metadata.stats with
    | some pi, some st =>
      if pi.length ≠ n then
        (decide (st.length = 1 ∧ pi.length = n + 1))
          || (decide (1 < st.length ∧ pi.length + 1 = n))
      else false
    | _, _ => false
  if reject then (false, ds)
  else
    let ds1 := { ds with spriteAndMetadataInfo := some metadata }
    match metadata.pointsInfo with
    | some pi => (true, { ds1 with points := assignMetadata ds1.points pi })
    | none => (false, ds1)

/-! ### `computeSequences` (data.ts) -/

/-- The reserved link attributes (`__next__`, then its successor). -/
def SEQUENCE_METADATA_ATTRS : List String := ["__next__", "__seq_next__"]

/-- The attribute scan of `getSequenceNextPointIndex`: the first reserved
attribute that is present with a value other than `''` provides
`sequenceAttr` (`some none` models a stored `null`); otherwise `none`. -/
def seqAttrLookup (md : PointMetadata) : Option (Option MDVal) :=
  SEQUENCE_METADATA_ATTRS.foldl
    (fun acc attr =>
      match acc with
      | some v => some v
      | none =>
        match lookupKey md attr with
        | some v => if v = some (.str "") then none else some v
        | none => none)
    none

/-- Model of `getSequenceNextPointIndex`: `none` models the `null` return; a `some`
result is the JavaScript number `+sequenceAttr`, where the inner `none`
models `NaN`. -/
def getSequenceNextPointIndex (md : PointMetadata) : Option (Option ℚ) :=
  match seqAttrLookup md with
  | none => none
  | some none => none
  | some (some v) => some (valNum v)

/-- Interpretation of a JavaScript number as a valid point-array index:
integral and within `[0, N)`; anything else (`NaN`, negative, fractional,
out of range) indexes `undefined`. -/
def asIndex (N : Nat) (jn : Option ℚ) : Option Nat :=
  match jn with
  | none => none
  | some q =>
    if q.den = 1 ∧ 0 ≤ q.num ∧ q.num < (N : Int) then some q.num.toNat else none

/-- Result of one iteration of the inner `while (points[currentIndex])`
traversal: either the loop ends after the current index, or it moves to the
link target. -/
inductive SeqStep where
  | halt (seen : List Bool)
  | step (nextIdx : Nat) (seen : List Bool)
deriving DecidableEq

/-- The body of the inner traversal at `currentIndex = cur`: follow the
link; with no link the loop ends (`currentIndex = -1`); otherwise the
(in-range) target is marked seen and becomes the current index, the loop
ending if it is not a valid point index.  Note the body never consults the
seen array. -/
def seqStep (points : List DataPoint) (cur : Nat) (seen : List Bool) : SeqStep :=
  match getSequenceNextPointIndex ((points.getD cur default).metadata) with
  | none => .halt seen
  | some jn =>
    match asIndex points.length jn with
    | some nxt => .step nxt (seen.set nxt true)
    | none => .halt seen

/-- The inner `while` loop as fuel-indexed iteration of `seqStep`,
collecting the pushed indices; `none` when the loop has not ended within
`fuel` iterations. -/
def seqWalk (points : List DataPoint) : Nat → Nat → List Bool → Option (List Nat × List Bool)
  | 0, _, _ => none
  | fuel + 1, cur, seen =>
    match seqStep points cur seen with
    | .halt seen2 => some ([cur], seen2)
    | .step nxt seen2 =>
      match seqWalk points fuel nxt seen2 with
      | some pr => some (cur :: pr.1, pr.2)
      | none => none

/-- The outer-scan state of `computeSequences`: the seen array, the
`indexToSequence` object (JavaScript number keys mapped to positions in
`sequences`), and the sequences built so far. -/
structure SeqState where
  seen : List Bool
  idx2seq : List (Int × Nat)
  seqs : List (List Nat)
deriving DecidableEq

/-- Model of `next in indexToSequence`: an integral number key found among the
recorded indices. -/
def idxLookup (m : List (Int × Nat)) (jn : Option ℚ) : Option Nat :=
  match jn with
  | none => none
  | some q =>
    if q.den = 1 then
      match m.find? (fun p => p.1 = q.num) with
      | some p => some p.2
      | none => none
    else none

/-- One index of the outer `for` scan of `computeSequences`: skip seen
indices; mark `i` seen; skip points without a link; prepend `i` to an
existing sequence its link points into; otherwise start a new sequence and
run the traversal loop from `i`. -/
def seqOuterStep (points : List DataPoint) (fuel : Nat) (st : SeqState) (i : Nat) :
    Option SeqState :=
  if st.seen.getD i false then some st
  else
    let seen1 := st.seen.set i true
    match getSequenceNextPointIndex ((points.getD i default).metadata) with
    | none => some { st with seen := seen1 }
    | some jn =>
      match idxLookup st.idx2seq jn with
      | some pos =>
        some { seen := seen1,
               idx2seq := ((i : Int), pos) :: st.idx2seq,
               seqs := updateAt st.seqs pos (fun sq => i :: sq) }
      | none =>
        match seqWalk points fuel i seen1 with
        | some pr =>
          some { seen := pr.2,
                 idx2seq := ((i : Int), st.seqs.length) :: st.idx2seq,
                 seqs := st.seqs ++ [pr.1] }
        | none => none

/-- Model of `computeSequences(points)`: the sequences' index lists, or `none` when
some inner traversal does not end within `fuel` iterations. -/
def computeSequences (points : List DataPoint) (fuel : Nat) : Option (List (List Nat)) :=
  let res := (List.range points.length).foldl
    (fun acc i =>
      match acc with
      | none => none
      | some st => seqOuterStep points fuel st i)
    (some ⟨List.replicate points.length false, [], []⟩)
  res.map (fun st => st.seqs)

/-- A one-point collection whose link forms a self-cycle. -/
def cyclicPt : DataPoint :=
  { index := 0, vector := [1], metadata := [("__next__", some (.str "0"))],
    projections := [] }

/-- The four-point collection of spec §8's sequence-reconstruction example:
`{0 → 2, 1 → none, 2 → 3, 3 → none}`. -/
def seqExamplePts : List DataPoint :=
  [ { index := 0, vector := [1], metadata := [("__next__", some (.str "2"))],
      projections := [] },
    { index := 1, vector := [1], metadata := [], projections := [] },
    { index := 2, vector := [1], metadata := [("__next__", some (.str "3"))],
      projections := [] },
    { index := 3, vector := [1], metadata := [], projections := [] } ]

/-! ### `getSubset` (data.ts), over an explicit object heap

`getSubset` copies points "so we can still always create new subsets based
on the original data"; whether the copies share mutable state with the
originals is a heap property, so the point fields that are JavaScript
objects (the vector and the metadata record) are modelled as references
into an explicit store. -/

/-- A `DataPoint` whose `vector` and `metadata` are references into the
heap. -/
structure RDataPoint where
  index : Nat
  vecRef : Nat
  metaRef : Nat
  projections : List (String × ℚ)
deriving DecidableEq

instance : Inhabited RDataPoint := ⟨⟨0, 0, 0, []⟩⟩

/-- The object heap: vector store and metadata-record store. -/
structure PHeap where
  vecs : List (List ℚ)
  metas : List PointMetadata
deriving DecidableEq

/-- Read a vector object. -/
def readVec (h : PHeap) (r : Nat) : List ℚ := h.vecs.getD r []

/-- Mutate a vector object in place (what `normalize()` does). -/
def writeVec (h : PHeap) (r : Nat) (v : List ℚ) : PHeap :=
  { h with vecs := h.vecs.set r v }

/-- Read a metadata record object. -/
def readMeta (h : PHeap) (r : Nat) : PointMetadata := h.metas.getD r []

/-- Mutate a metadata record object in place (what `analyzeMetadata`
does). -/
def writeMeta (h : PHeap) (r : Nat) (m : PointMetadata) : PHeap :=
  { h with metas := h.metas.set r m }

/-- Model of `pointsSubset`: the selected points — the indexed ones when a non-empty
subset is given, else all points. -/
def getSubsetSel (pts : List RDataPoint) (subset : Option (List Nat)) : List RDataPoint :=
  match subset with
  | some l => if 0 < l.length then l.map (fun i => pts.getD i default) else pts
  | none => pts

/-- The copied points: each allocates a fresh vector slot (`vector.slice()`)
starting at `base`, keeps the same `index` and the same metadata reference
(`metadata: dp.metadata`), and starts an empty projections cache. -/
def freshPoints (base : Nat) : List RDataPoint → List RDataPoint
  | [] => []
  | dp :: t => ⟨dp.index, base, dp.metaRef, []⟩ :: freshPoints (base + 1) t

/-- Model of `DataSet.getSubset(subset)`: the copied points and the heap extended
with the vector copies (the `new DataSet(points, ...)` wrapping is
omitted — only the points copy is at issue). -/
def getSubset (h : PHeap) (pts : List RDataPoint) (subset : Option (List Nat)) :
    PHeap × List RDataPoint :=
  let sel := getSubsetSel pts subset
  let h2 := { h with vecs := h.vecs ++ sel.map (fun dp => readVec h dp.vecRef) }
  (h2, freshPoints h.vecs.length sel)

/-! ### Concrete states used by the witnesses and counterexamples -/

/-- A trivial optimizer engine over `Unit`. -/
def unitOps : EngineOps Unit :=
  ⟨(), fun _ _ => (), fun _ => (), fun _ => [], fun _ => (), fun _ => 2⟩

/-- A two-point dataset state. -/
def dsTwoPoints : DataSetState Unit :=
  { points :=
      [ { index := 0, vector := [1], metadata := [("label", some (.str "p0"))],
          projections := [] },
        { index := 1, vector := [1], metadata := [("label", some (.str "p1"))],
          projections := [] } ],
    shuffledDataIndices := [0, 1],
    projections := [],
    nearest := some [],
    nearestK := 0,
    tSNEIteration := 0,
    tSNEShouldPause := false,
    tSNEShouldStop := true,
    hasTSNERun := false,
    spriteAndMetadataInfo := none,
    tsne := none }

/-- State `dsTwoPoints` with an active run (engine handle exists). -/
def dsRunning : DataSetState Unit :=
  { dsTwoPoints with tsne := some (), tSNEShouldStop := false, hasTSNERun := true }

/-- Single-column metadata with five records: a record-count mismatch
against two points which is not one of the two explainable header
shapes. -/
def mdFiveRecords : SpriteAndMetadataInfo :=
  { stats := some [⟨"label", false, false, none, none, none⟩],
    pointsInfo := some
      [ [("label", some (.str "a"))], [("label", some (.str "b"))],
        [("label", some (.str "c"))], [("label", some (.str "d"))],
        [("label", some (.str "e"))] ] }

/-- Single-column metadata with three records against two points: the
single-column-header mismatch shape. -/
def mdThreeRecords : SpriteAndMetadataInfo :=
  { stats := some [⟨"label", false, false, none, none, none⟩],
    pointsInfo := some
      [ [("label", some (.str "a"))], [("label", some (.str "b"))],
        [("label", some (.str "c"))] ] }

/-- A one-point heap for the `getSubset` aliasing scenario. -/
def subsetHeap : PHeap := ⟨[[1, 2]], [[("label", some (.str "x"))]]⟩

/-- The one point of `subsetHeap`. -/
def subsetPts : List RDataPoint := [⟨0, 0, 0, []⟩]

/-! ## Definitions end here; theorems follow. -/

theorem lookupKey_setKey_self {A : Type} (m : List (String × A)) (k : String) (v : A) :
    lookupKey (setKey m k v) k = some v := by
  induction m with
  | nil => simp [setKey, lookupKey, List.find?]
  | cons h t ih =>
    obtain ⟨k', w⟩ := h
    by_cases hk : k' = k
    · simp [setKey, hk, lookupKey, List.find?]
    · simpa [setKey, hk, lookupKey, List.find?] using ih

theorem lookupKey_setKey_ne {A : Type} (m : List (String × A)) (k k' : String) (v : A)
    (h : k' ≠ k) : lookupKey (setKey m k v) k' = lookupKey m k' := by
  induction m with
  | nil => simp [setKey, lookupKey, List.find?, Ne.symm h]
  | cons hd t ih =>
    obtain ⟨k₀, w⟩ := hd
    by_cases hk : k₀ = k
    · subst hk
      simp [setKey, lookupKey, List.find?, Ne.symm h]
    · by_cases hk' : k₀ = k'
      · simp [setKey, hk, lookupKey, List.find?, hk', h]
      · simpa [setKey, hk, lookupKey, List.find?, hk'] using ih

theorem streamParseAux_exhausted (content : List Char) (chunkSize : Nat) (delim : Char) :
    ∀ fuel offset data, content.length ≤ offset →
      streamParseAux content chunkSize delim fuel offset data = none := by
  intro fuel
  induction fuel with
  | zero => intro offset data _; rfl
  | succ n ih =>
    intro offset data hoff
    have hchunk : (content.drop offset).take chunkSize = [] := by
      have : content.drop offset = [] := List.drop_eq_nil_of_le hoff
      simp [this]
    simp only [streamParseAux, hchunk, splitOnChar, List.length_singleton, if_pos rfl]
    exact ih (offset + chunkSize) (data ++ [].headD []) (le_trans hoff (Nat.le_add_right _ _))

/-- C1 (code_bug): the streaming parser does not deliver the records of the
logical stream for every chunk size.  On the 5-byte buffer `"ab\ncd"` with
chunk size 2 it resolves with `["ab", "c"]` — the final byte is never read,
because the exhaustion test compares the offset against `byteLength - 1` —
whereas processing the same buffer as one chunk yields `["ab", "cd"]`; and on
a buffer whose final chunk contains no delimiter (`"abc"`) the parse never
resolves at all, so the final partial record is not delivered. -/
theorem streamParse_truncates_final_record :
    streamParse "ab\ncd" 2 '\n' 4 = some [['a', 'b'], ['c']] ∧
    streamParse "ab\ncd" 1000000 '\n' 4 = some [['a', 'b'], ['c', 'd']] ∧
    (∀ fuel, streamParse "abc" 5 '\n' fuel = none) := by
  refine ⟨by decide, by decide, ?_⟩
  intro fuel
  cases fuel with
  | zero => rfl
  | succ n =>
    have h1 : streamParse "abc" 5 '\n' (n + 1)
        = streamParseAux "abc".toList 5 '\n' n 5 "abc".toList := rfl
    rw [h1]
    exact streamParseAux_exhausted _ _ _ n 5 _ (by decide)

/-- C8 counterexample: with dimensionality 2 established by the first row,
the record `"1\t2\t3\t4"` has a numeric first field and a field count (4)
that disagrees with the dimensionality — according to the claim its first
field should be taken as a label — yet `parseTensors` stores no label and
takes the whole record as the vector (the label branch requires the field
count to be exactly `numDim + 1`). -/
theorem tensorLine_label_condition_cex :
    (tensorLinePoint 2 (some 2) ["1", "2", "3", "4"]).metadata = [] ∧
    (tensorLinePoint 2 (some 2) ["1", "2", "3", "4"]).vector = [1, 2, 3, 4] ∧
    (4 : Nat) ≠ 2 := by
  refine ⟨by decide, ?_, by decide⟩
  show ["1", "2", "3", "4"].map jsNumberD = [1, 2, 3, 4]
  decide

/-- C8 amended: `parseTensors` treats the first field of a record as a label
(interpreting the remainder as the vector) exactly when that field is not
numeric or the record's field count is exactly one more than the
dimensionality established by the first parsed row; otherwise it takes the
whole record as the vector.  It fails with the dimension-mismatch error when
a row's resolved vector length differs from the established dimensionality,
and with the degenerate-vector error when the resolved dimensionality
is ≤ 1. -/
theorem parseTensors_label_policy :
    (∀ (dataLen : Nat) (nd : Option Nat) (row : List String),
      ((tensorLinePoint dataLen nd row).metadata ≠ [] ↔
        (jsNumber (row.headD "") = none ∨ nd = some (row.length - 1))) ∧
      ((jsNumber (row.headD "") = none ∨ nd = some (row.length - 1)) →
        (tensorLinePoint dataLen nd row).metadata
            = [("label", some (.str (row.headD "")))] ∧
        (tensorLinePoint dataLen nd row).vector = (row.drop 1).map jsNumberD) ∧
      (¬(jsNumber (row.headD "") = none ∨ nd = some (row.length - 1)) →
        (tensorLinePoint dataLen nd row).metadata = [] ∧
        (tensorLinePoint dataLen nd row).vector = row.map jsNumberD)) ∧
    (∀ (st : List DataPoint × Option Nat) (line : String), trimStr line ≠ "" →
      (parseTensorsStep st line = .error .dimensionMismatch ↔
        st.2.getD (tensorLinePoint st.1.length st.2 (splitTab (trimStr line))).vector.length
          ≠ (tensorLinePoint st.1.length st.2 (splitTab (trimStr line))).vector.length) ∧
      (parseTensorsStep st line = .error .degenerateVector ↔
        st.2.getD (tensorLinePoint st.1.length st.2 (splitTab (trimStr line))).vector.length
          = (tensorLinePoint st.1.length st.2 (splitTab (trimStr line))).vector.length ∧
        (tensorLinePoint st.1.length st.2 (splitTab (trimStr line))).vector.length ≤ 1) ∧
      ((st.2.getD (tensorLinePoint st.1.length st.2 (splitTab (trimStr line))).vector.length
          = (tensorLinePoint st.1.length st.2 (splitTab (trimStr line))).vector.length ∧
        1 < (tensorLinePoint st.1.length st.2 (splitTab (trimStr line))).vector.length) →
        parseTensorsStep st line
          = .ok (st.1 ++ [tensorLinePoint st.1.length st.2 (splitTab (trimStr line))],
                 some (tensorLinePoint st.1.length st.2 (splitTab (trimStr line))).vector.length))) := by
  constructor
  · intro dataLen nd row
    simp only [tensorLinePoint]
    split
    · rename_i h
      simp at h ⊢
      tauto
    · rename_i h
      simp at h ⊢
      tauto
  · intro st line hline
    set dp := tensorLinePoint st.1.length st.2 (splitTab (trimStr line)) with hdp
    by_cases hmis : st.2.getD dp.vector.length ≠ dp.vector.length
    · simp [parseTensorsStep, hline, ← hdp, hmis]
    · push_neg at hmis
      by_cases hdeg : dp.vector.length ≤ 1
      · simp [parseTensorsStep, hline, ← hdp, hmis, hdeg]
      · refine ⟨?_, ?_, ?_⟩
        · simp [parseTensorsStep, hline, ← hdp, hmis, hdeg]
        · simp [parseTensorsStep, hline, ← hdp, hmis, hdeg]
        · intro _
          simp [parseTensorsStep, hline, ← hdp, hmis, hdeg]

/-- Witness for `parseTensors_label_policy` at a concrete record. -/
theorem parseTensors_label_policy_witness :
    parseTensorsStep ([], none) "1.0\t2.0\t3.0"
      = .ok ([] ++ [tensorLinePoint ([] : List DataPoint).length none
                      (splitTab (trimStr "1.0\t2.0\t3.0"))],
             some (tensorLinePoint ([] : List DataPoint).length none
                      (splitTab (trimStr "1.0\t2.0\t3.0"))).vector.length) := by
  exact ((parseTensors_label_policy.2 ([], none) "1.0\t2.0\t3.0" (by decide)).2.2)
    (by constructor <;> decide)

theorem lookupKey_eq_none_iff {A : Type} (m : List (String × A)) (k : String) :
    lookupKey m k = none ↔ k ∉ m.map Prod.fst := by
  induction m with
  | nil => simp [lookupKey, List.find?]
  | cons h t ih =>
    obtain ⟨k', v⟩ := h
    by_cases hk : k' = k
    · simp [lookupKey, List.find?, hk]
    · simpa [lookupKey, List.find?, hk, Ne.symm hk] using ih

theorem bump_keys (m : List (String × Nat)) (key : String) :
    (bump m key).map Prod.fst =
      if key ∈ m.map Prod.fst then m.map Prod.fst else m.map Prod.fst ++ [key] := by
  unfold bump
  cases hl : lookupKey m key with
  | some c =>
    have hmem : key ∈ m.map Prod.fst := by
      by_contra hnot
      rw [(lookupKey_eq_none_iff m key).mpr hnot] at hl
      cases hl
    rw [if_pos hmem, List.map_map]
    exact List.map_congr_left (fun p _ => by by_cases h : p.1 = key <;> simp [h])
  | none =>
    have hnot : key ∉ m.map Prod.fst := (lookupKey_eq_none_iff m key).mp hl
    rw [if_neg hnot]
    simp

theorem firstSeen_append (ks : List String) (k : String) :
    firstSeen (ks ++ [k])
      = if k ∈ firstSeen ks then firstSeen ks else firstSeen ks ++ [k] := by
  unfold firstSeen
  rw [List.foldl_append]
  rfl

theorem firstSeen_length_le_append (ks : List String) (k : String) :
    (firstSeen ks).length ≤ (firstSeen (ks ++ [k])).length := by
  rw [firstSeen_append]
  split <;> simp

theorem colStep_map_stats_of_true (st : ColSt) (v : MDVal)
    (h : st.stats.tooManyUniqueValues = true) :
    (colStep st v).map = st.map ∧ (colStep st v).stats.tooManyUniqueValues = true := by
  unfold colStep
  cases hv : valNum v <;> simp [h]

theorem colStep_map_stats_of_false (st : ColSt) (v : MDVal)
    (h : st.stats.tooManyUniqueValues = false) :
    (colStep st v).map = bump st.map (mkey v) ∧
    (colStep st v).stats.tooManyUniqueValues
      = decide (NUM_COLORS_COLOR_MAP < (bump st.map (mkey v)).length) := by
  unfold colStep
  cases hv : valNum v <;> simp [h]

theorem colStep_name (st : ColSt) (v : MDVal) :
    (colStep st v).stats.name = st.stats.name := by
  unfold colStep
  cases hv : valNum v <;> by_cases h : st.stats.tooManyUniqueValues <;> simp [h]

theorem colStep_numericPart (st : ColSt) (v : MDVal) :
    numericPart (colStep st v) = numericStep (numericPart st) v := by
  unfold colStep numericPart numericStep
  cases hv : valNum v <;> by_cases h : st.stats.tooManyUniqueValues <;> simp [h, hv]

theorem colFold_flag_spec (n : String) (vs : List MDVal) :
    ((vs.foldl colStep (initCol n)).stats.tooManyUniqueValues
        = decide (NUM_COLORS_COLOR_MAP < (firstSeen (vs.map mkey)).length)) ∧
    ((vs.foldl colStep (initCol n)).stats.tooManyUniqueValues = false →
      (vs.foldl colStep (initCol n)).map.map Prod.fst = firstSeen (vs.map mkey)) := by
  induction vs using List.reverseRecOn with
  | nil => simp [initCol, firstSeen]
  | append_singleton vs v ih =>
    rw [List.foldl_append]
    simp only [List.foldl_cons, List.foldl_nil]
    have hmap : (vs ++ [v]).map mkey = vs.map mkey ++ [mkey v] := by simp
    rw [hmap]
    cases hflag : (vs.foldl colStep (initCol n)).stats.tooManyUniqueValues with
    | true =>
      obtain ⟨hm, hf⟩ := colStep_map_stats_of_true _ v hflag
      have h50 : NUM_COLORS_COLOR_MAP < (firstSeen (vs.map mkey)).length := by
        have := ih.1
        rw [hflag] at this
        exact of_decide_eq_true this.symm
      have h50' : NUM_COLORS_COLOR_MAP < (firstSeen (vs.map mkey ++ [mkey v])).length :=
        lt_of_lt_of_le h50 (firstSeen_length_le_append _ _)
      constructor
      · rw [hf, decide_eq_true h50']
      · intro hcontra
        rw [hf] at hcontra
        cases hcontra
    | false =>
      obtain ⟨hm, hf⟩ := colStep_map_stats_of_false _ v hflag
      have hkeys : (vs.foldl colStep (initCol n)).map.map Prod.fst
          = firstSeen (vs.map mkey) := ih.2 hflag
      have hbump : (bump (vs.foldl colStep (initCol n)).map (mkey v)).map Prod.fst
          = firstSeen (vs.map mkey ++ [mkey v]) := by
        rw [bump_keys, hkeys, firstSeen_append]
      have hlen : (bump (vs.foldl colStep (initCol n)).map (mkey v)).length
          = (firstSeen (vs.map mkey ++ [mkey v])).length := by
        rw [← hbump, List.length_map]
      constructor
      · rw [hf, hlen]
      · intro _
        rw [hm, hbump]

theorem colFold_growth_bound (n : String) (vs : List MDVal) (v : MDVal)
    (hne : (colStep (vs.foldl colStep (initCol n)) v).map.length
        ≠ (vs.foldl colStep (initCol n)).map.length) :
    (vs.foldl colStep (initCol n)).map.length ≤ NUM_COLORS_COLOR_MAP := by
  cases hflag : (vs.foldl colStep (initCol n)).stats.tooManyUniqueValues with
  | true =>
    exact absurd (by rw [(colStep_map_stats_of_true _ v hflag).1])  hne
  | false =>
    have h1 := (colFold_flag_spec n vs).1
    rw [hflag] at h1
    have h2 : ¬ NUM_COLORS_COLOR_MAP < (firstSeen (vs.map mkey)).length :=
      of_decide_eq_false h1.symm
    have hkeys := (colFold_flag_spec n vs).2 hflag
    have : (vs.foldl colStep (initCol n)).map.length = (firstSeen (vs.map mkey)).length := by
      rw [← hkeys, List.length_map]
    omega

theorem zip_self_map {A B : Type} (l : List A) (f : A → B) :
    l.zip (l.map f) = l.map (fun a => (a, f a)) := by
  induction l with
  | nil => rfl
  | cons a t ih => simp [ih]

theorem analyzePointCols_fst (names : List String) (sts : List ColSt) (md : PointMetadata)
    (hnd : names.Nodup) (hlen : sts.length = names.length) :
    (analyzePointCols (names.zip sts) md).1
      = (names.zip sts).map (fun p => colApply p.2 (lookupKey md p.1)) := by
  induction names generalizing sts md with
  | nil =>
    have hs : sts = [] := by simpa using hlen
    subst hs
    simp [analyzePointCols]
  | cons n rest ih =>
    cases sts with
    | nil => cases hlen
    | cons st sts' =>
      have hnotin : n ∉ rest := (List.nodup_cons.mp hnd).1
      have hnd' : rest.Nodup := (List.nodup_cons.mp hnd).2
      have hlen' : sts'.length = rest.length := by simpa using hlen
      have hpreserve : ∀ (v : MDVal) (p : String × ColSt), p ∈ rest.zip sts' →
          lookupKey (colWrite md n v) p.1 = lookupKey md p.1 := by
        intro v p hp
        have hpmem : p.1 ∈ rest := (List.of_mem_zip hp).1
        have hne : p.1 ≠ n := fun hc => hnotin (hc ▸ hpmem)
        unfold colWrite
        cases valNum v with
        | none => rfl
        | some q => exact lookupKey_setKey_ne _ _ _ _ hne
      have hz : (n :: rest).zip (st :: sts') = (n, st) :: rest.zip sts' := rfl
      rw [hz]
      cases hv : lookupKey md n with
      | some ov =>
        cases ov with
        | some v =>
          simp only [analyzePointCols, hv]
          rw [ih sts' (colWrite md n v) hnd' hlen']
          simp only [List.map_cons, colApply, hv]
          congr 1
          exact List.map_congr_left (fun p hp => by rw [hpreserve v p hp])
        | none =>
          simp only [analyzePointCols, hv]
          rw [ih sts' md hnd' hlen']
          simp [colApply, hv]
      | none =>
        simp only [analyzePointCols, hv]
        rw [ih sts' md hnd' hlen']
        simp [colApply, hv]

theorem analyzePointCols_snd (names : List String) (sts : List ColSt) (md : PointMetadata)
    (hlen : sts.length = names.length) :
    (analyzePointCols (names.zip sts) md).2 = metaWrite names md := by
  induction names generalizing sts md with
  | nil =>
    have hs : sts = [] := by simpa using hlen
    subst hs
    simp [analyzePointCols, metaWrite]
  | cons n rest ih =>
    cases sts with
    | nil => cases hlen
    | cons st sts' =>
      have hlen' : sts'.length = rest.length := by simpa using hlen
      have hz : (n :: rest).zip (st :: sts') = (n, st) :: rest.zip sts' := rfl
      rw [hz]
      simp only [metaWrite, List.foldl_cons]
      cases hv : lookupKey md n with
      | some ov =>
        cases ov with
        | some v =>
          simp only [analyzePointCols, hv]
          exact ih sts' (colWrite md n v) hlen'
        | none =>
          simp only [analyzePointCols, hv]
          exact ih sts' md hlen'
      | none =>
        simp only [analyzePointCols, hv]
        exact ih sts' md hlen'

theorem colValues_append_single (n : String) (mds : List PointMetadata) (md : PointMetadata) :
    colValues n (mds ++ [md])
      = colValues n mds ++ (match lookupKey md n with
          | some (some v) => [v]
          | _ => []) := by
  unfold colValues
  rw [List.filterMap_append]
  cases hv : lookupKey md n with
  | some ov => cases ov <;> simp [hv]
  | none => simp [hv]

theorem analyzeFold_spec (names : List String) (hnd : names.Nodup) (mds : List PointMetadata) :
    (analyzeFold names mds).1
        = names.map (fun n => (colValues n mds).foldl colStep (initCol n)) ∧
    (analyzeFold names mds).2 = mds.map (metaWrite names) := by
  induction mds using List.reverseRecOn with
  | nil => simp [analyzeFold, colValues]
  | append_singleton mds md ih =>
    obtain ⟨ih1, ih2⟩ := ih
    unfold analyzeFold at ih1 ih2 ⊢
    rw [List.foldl_append]
    simp only [List.foldl_cons, List.foldl_nil]
    rw [ih1, ih2]
    have hlen : (names.map (fun n => (colValues n mds).foldl colStep (initCol n))).length
        = names.length := by simp
    constructor
    · rw [analyzePointCols_fst names _ md hnd hlen, zip_self_map, List.map_map]
      refine List.map_congr_left (fun n _ => ?_)
      simp only [Function.comp_apply]
      rw [colValues_append_single]
      cases hv : lookupKey md n with
      | some ov =>
        cases ov with
        | some v => simp [colApply, hv, List.foldl_append]
        | none => simp [colApply, hv]
      | none => simp [colApply, hv]
    · rw [analyzePointCols_snd names _ md hlen]
      simp

theorem colFold_name (n : String) (vs : List MDVal) :
    (vs.foldl colStep (initCol n)).stats.name = n := by
  induction vs using List.reverseRecOn with
  | nil => rfl
  | append_singleton vs v ih =>
    rw [List.foldl_append]
    simp only [List.foldl_cons, List.foldl_nil]
    rw [colStep_name]
    exact ih

theorem statsFor_map (names : List String) (g : String → ColumnStats) (n : String)
    (hg : ∀ m, (g m).name = m) (hn : n ∈ names) :
    statsFor (names.map g) n = some (g n) := by
  induction names with
  | nil => cases hn
  | cons m rest ih =>
    by_cases hmn : m = n
    · subst hmn
      simp [statsFor, List.find?, hg]
    · have hn' : n ∈ rest := by
        cases List.mem_cons.mp hn with
        | inl h => exact absurd h.symm hmn
        | inr h => exact h
      rw [List.map_cons]
      show List.find? (fun cs => cs.name = n) (g m :: rest.map g) = some (g n)
      rw [List.find?_cons_of_neg _ (by simp [hg m, hmn])]
      exact ih hn'

theorem metaWrite_cons (m : String) (rest : List String) (md : PointMetadata) :
    metaWrite (m :: rest) md
      = metaWrite rest (match lookupKey md m with
          | some (some v) => colWrite md m v
          | _ => md) := by
  simp only [metaWrite, List.foldl_cons]

theorem metaWrite_lookup_not_mem (names : List String) (md : PointMetadata) (n : String)
    (hn : n ∉ names) : lookupKey (metaWrite names md) n = lookupKey md n := by
  induction names generalizing md with
  | nil => rfl
  | cons m rest ih =>
    have hnm : n ≠ m := fun hc => hn (hc ▸ List.mem_cons_self m rest)
    have hn' : n ∉ rest := fun hc => hn (List.mem_cons_of_mem _ hc)
    rw [metaWrite_cons]
    cases hv : lookupKey md m with
    | some ov =>
      cases ov with
      | some v =>
        show lookupKey (metaWrite rest (colWrite md m v)) n = lookupKey md n
        rw [ih _ hn']
        unfold colWrite
        cases valNum v with
        | none => rfl
        | some q => exact lookupKey_setKey_ne _ _ _ _ hnm
      | none =>
        show lookupKey (metaWrite rest md) n = lookupKey md n
        rw [ih _ hn']
    | none =>
      show lookupKey (metaWrite rest md) n = lookupKey md n
      rw [ih _ hn']

theorem metaWrite_lookup (names : List String) (md : PointMetadata) (n : String) (s : String)
    (q : ℚ) (hnd : names.Nodup) (hn : n ∈ names)
    (hv : lookupKey md n = some (some (.str s))) (hq : jsNumber s = some q) :
    lookupKey (metaWrite names md) n = some (some (.num q)) := by
  induction names generalizing md with
  | nil => cases hn
  | cons m rest ih =>
    have hnotin : m ∉ rest := (List.nodup_cons.mp hnd).1
    have hnd' : rest.Nodup := (List.nodup_cons.mp hnd).2
    rw [metaWrite_cons]
    by_cases hmn : m = n
    · subst hmn
      rw [hv]
      have hwrite : colWrite md m (.str s) = setKey md m (some (.num q)) := by
        simp [colWrite, valNum, hq]
      show lookupKey (metaWrite rest (colWrite md m (.str s))) m = some (some (.num q))
      rw [metaWrite_lookup_not_mem rest _ m hnotin, hwrite, lookupKey_setKey_self]
    · have hn' : n ∈ rest := by
        cases List.mem_cons.mp hn with
        | inl h => exact absurd h.symm hmn
        | inr h => exact h
      cases hvm : lookupKey md m with
      | some ov =>
        cases ov with
        | some v =>
          show lookupKey (metaWrite rest (colWrite md m v)) n = some (some (.num q))
          refine ih _ hnd' hn' ?_
          unfold colWrite
          cases valNum v with
          | none => exact hv
          | some q' => rw [lookupKey_setKey_ne _ _ _ _ (fun hc => hmn hc.symm)]; exact hv
        | none =>
          show lookupKey (metaWrite rest md) n = some (some (.num q))
          exact ih _ hnd' hn' hv
      | none =>
        show lookupKey (metaWrite rest md) n = some (some (.num q))
        exact ih _ hnd' hn' hv

/-- C9: for a metadata column `n`, `analyzeMetadata` returns the statistics
of the per-column fold, whose `tooManyUniqueValues` flag is set exactly when
the distinct observed value count exceeds the 50-value threshold; once the
flag is set the per-value count map stops being updated; an entry is added
to the count map (hence to `uniqueEntries`) only while the cardinality is
still at most the threshold; and the numeric/min/max tracking continues
regardless of the flag. -/
theorem analyzeMetadata_unique_threshold (names : List String) (mds : List PointMetadata)
    (n : String) (hnd : names.Nodup) (hn : n ∈ names) :
    (statsFor (analyzeMetadata names mds).1 n
        = some { ((colValues n mds).foldl colStep (initCol n)).stats with
                 uniqueEntries := some ((colValues n mds).foldl colStep (initCol n)).map }) ∧
    (((colValues n mds).foldl colStep (initCol n)).stats.tooManyUniqueValues
        = decide (NUM_COLORS_COLOR_MAP < (firstSeen ((colValues n mds).map mkey)).length)) ∧
    (∀ (st : ColSt) (v : MDVal), st.stats.tooManyUniqueValues = true →
        (colStep st v).map = st.map) ∧
    (∀ (vs : List MDVal) (v : MDVal),
        (colStep (vs.foldl colStep (initCol n)) v).map.length
            ≠ (vs.foldl colStep (initCol n)).map.length →
        (vs.foldl colStep (initCol n)).map.length ≤ NUM_COLORS_COLOR_MAP) ∧
    (∀ (st : ColSt) (v : MDVal), numericPart (colStep st v) = numericStep (numericPart st) v) := by
  refine ⟨?_, (colFold_flag_spec n (colValues n mds)).1,
    fun st v h => (colStep_map_stats_of_true st v h).1,
    fun vs v h => colFold_growth_bound n vs v h,
    colStep_numericPart⟩
  unfold analyzeMetadata
  simp only []
  rw [(analyzeFold_spec names hnd mds).1, List.map_map]
  exact statsFor_map names _ n (fun m => by simp [colFold_name]) hn

/-- Witness for `analyzeMetadata_unique_threshold` on a one-column file. -/
theorem analyzeMetadata_unique_threshold_witness :
    (statsFor (analyzeMetadata ["a"] [[("a", some (.str "x"))]]).1 "a"
        = some { ((colValues "a" [[("a", some (.str "x"))]]).foldl colStep (initCol "a")).stats with
                 uniqueEntries :=
                   some ((colValues "a" [[("a", some (.str "x"))]]).foldl colStep (initCol "a")).map }) ∧
    (((colValues "a" [[("a", some (.str "x"))]]).foldl colStep (initCol "a")).stats.tooManyUniqueValues
        = decide (NUM_COLORS_COLOR_MAP
            < (firstSeen ((colValues "a" [[("a", some (.str "x"))]]).map mkey)).length)) ∧
    (∀ (st : ColSt) (v : MDVal), st.stats.tooManyUniqueValues = true →
        (colStep st v).map = st.map) ∧
    (∀ (vs : List MDVal) (v : MDVal),
        (colStep (vs.foldl colStep (initCol "a")) v).map.length
            ≠ (vs.foldl colStep (initCol "a")).map.length →
        (vs.foldl colStep (initCol "a")).map.length ≤ NUM_COLORS_COLOR_MAP) ∧
    (∀ (st : ColSt) (v : MDVal), numericPart (colStep st v) = numericStep (numericPart st) v) :=
  analyzeMetadata_unique_threshold ["a"] [[("a", some (.str "x"))]] "a"
    (by decide) (by decide)

/-- C10: `analyzeMetadata` replaces, in place, every metadata value that
parses as a number by its numeric conversion; since `parseMetadata` resolves
with the very records `analyzeMetadata` mutated, the returned `pointsInfo`
holds numbers rather than the original strings for numeric-looking
fields. -/
theorem parseMetadata_numeric_mutation (lines : List String) (p : Nat) (n s : String) (q : ℚ)
    (hnd : (metaParseRun lines).columnNames.Nodup)
    (hn : n ∈ (metaParseRun lines).columnNames)
    (hv : lookupKey ((metaParseRun lines).pointsMetadata.getD p []) n
        = some (some (.str s)))
    (hq : jsNumber s = some q) :
    lookupKey ((parseMetadata lines).2.getD p []) n = some (some (.num q)) := by
  unfold parseMetadata analyzeMetadata
  simp only []
  rw [(analyzeFold_spec (metaParseRun lines).columnNames hnd
        (metaParseRun lines).pointsMetadata).2]
  by_cases hp : p < (metaParseRun lines).pointsMetadata.length
  · have hget : ((metaParseRun lines).pointsMetadata.map
        (metaWrite (metaParseRun lines).columnNames)).getD p []
        = metaWrite (metaParseRun lines).columnNames
            ((metaParseRun lines).pointsMetadata.getD p []) := by
      rw [List.getD_eq_getElem?_getD, List.getElem?_map, List.getElem?_eq_getElem hp]
      rw [List.getD_eq_getElem?_getD, List.getElem?_eq_getElem hp]
      rfl
    rw [hget]
    exact metaWrite_lookup _ _ _ _ _ hnd hn hv hq
  · have hout : ((metaParseRun lines).pointsMetadata).getD p [] = [] := by
      rw [List.getD_eq_getElem?_getD, List.getElem?_eq_none (by omega)]
      rfl
    rw [hout] at hv
    cases hv

/-- Witness for `parseMetadata_numeric_mutation` on a concrete two-column
metadata file with a header row. -/
theorem parseMetadata_numeric_mutation_witness :
    lookupKey ((parseMetadata ["a\tb", "12\tzz"]).2.getD 0 []) "a"
      = some (some (.num 12)) :=
  parseMetadata_numeric_mutation ["a\tb", "12\tzz"] 0 "a" "12" 12
    (by decide) (by decide) (by decide) (by decide)

/-- C7: if the accelerated computation fails at any piece of the call,
`findKNNGPUCosine` discards all partial results and resolves with exactly
the result of the CPU strategy `findKNN` applied to the whole input with
the normalized cosine distance. -/
theorem findKNNGPUCosine_fallback {T : Type} (dataPoints : List T) (k : Nat)
    (accessor : T → List ℚ) (p : Nat)
    (hp : p < (dataPoints.length + OPTIMAL_GPU_BLOCK_SIZE - 1) / OPTIMAL_GPU_BLOCK_SIZE) :
    findKNNGPUCosine dataPoints k accessor (some p)
      = findKNN dataPoints k accessor (fun a b _ => cosDistNorm a b) := by
  have key : ∀ (M modulo remaining piece offset : Nat) (acc : List (List NearestEntry)),
      piece ≤ p → p < piece + remaining →
      gpuLoop dataPoints k accessor (some p) M modulo remaining piece offset acc
        = findKNN dataPoints k accessor (fun a b _ => cosDistNorm a b) := by
    intro M modulo remaining
    induction remaining with
    | zero => intro piece offset acc h1 h2; omega
    | succ r ih =>
      intro piece offset acc h1 h2
      by_cases hpp : p = piece
      · subst hpp
        simp [gpuLoop]
      · have hlt : piece < p := lt_of_le_of_ne h1 (Ne.symm hpp)
        simp only [gpuLoop]
        rw [if_neg (by simpa using hpp)]
        exact ih (piece + 1) _ _ (by omega) (by omega)
  unfold findKNNGPUCosine
  exact key _ _ _ 0 0 [] (Nat.zero_le p) (by simpa using hp)

/-- Witness for `findKNNGPUCosine_fallback`: hardware failure at piece 0 of
a two-point call. -/
theorem findKNNGPUCosine_fallback_witness :
    findKNNGPUCosine [(), ()] 1 (fun _ => [1]) (some 0)
      = findKNN [(), ()] 1 (fun _ => [1]) (fun a b _ => cosDistNorm a b) :=
  findKNNGPUCosine_fallback [(), ()] 1 (fun _ => [1]) 0 (by decide)

/-- C3 counterexample: on the one-point collection whose `__next__` link is
its own index, the inner traversal configuration reached from the outer
scan maps to itself — the visited-set is consulted only by the outer scan,
never by the inner `while` loop — so the loop never exits: chaining a
cyclic link structure loops forever, and `computeSequences` completes
within no fuel bound. -/
theorem computeSequences_cycle_cex :
    seqStep [cyclicPt] 0 [true] = .step 0 [true] ∧
    computeSequences [cyclicPt] 5 = none := by
  exact ⟨by decide, by decide⟩

theorem seqWalk_eq_none_iff (points : List DataPoint) :
    ∀ (fuel cur : Nat) (seen seen' : List Bool),
      (seqWalk points fuel cur seen = none ↔ seqWalk points fuel cur seen' = none) := by
  intro fuel
  induction fuel with
  | zero => intro cur seen seen'; simp [seqWalk]
  | succ n ih =>
    intro cur seen seen'
    simp only [seqWalk, seqStep]
    cases hg : getSequenceNextPointIndex ((points.getD cur default).metadata) with
    | none => simp
    | some jn =>
      cases ha : asIndex points.length jn with
      | some nxt =>
        simp only [ha]
        cases hw : seqWalk points n nxt (seen.set nxt true) with
        | some pr =>
          cases hw' : seqWalk points n nxt (seen'.set nxt true) with
          | some pr' => simp
          | none =>
            have : seqWalk points n nxt (seen.set nxt true) = none :=
              (ih nxt (seen.set nxt true) (seen'.set nxt true)).mpr hw'
            rw [this] at hw
            cases hw
        | none =>
          cases hw' : seqWalk points n nxt (seen'.set nxt true) with
          | some pr' =>
            have : seqWalk points n nxt (seen'.set nxt true) = none :=
              (ih nxt (seen.set nxt true) (seen'.set nxt true)).mp hw
            rw [this] at hw'
            cases hw'
          | none => simp
      | none => simp [ha]

theorem seqOuterStep_isSome (points : List DataPoint) (fuel : Nat) (st : SeqState) (i : Nat)
    (h : ∀ seen, seqWalk points fuel i seen ≠ none) :
    seqOuterStep points fuel st i ≠ none := by
  unfold seqOuterStep
  split
  · simp
  · cases hg : getSequenceNextPointIndex ((points.getD i default).metadata) with
    | none => simp
    | some jn =>
      simp only []
      cases hl : idxLookup st.idx2seq jn with
      | some pos => simp
      | none =>
        simp only []
        cases hw : seqWalk points fuel i (st.seen.set i true) with
        | some pr => simp
        | none => exact absurd hw (h _)

theorem seqFold_isSome (points : List DataPoint) (fuel : Nat) :
    ∀ (l : List Nat) (st : SeqState),
      (∀ i ∈ l, ∀ seen, seqWalk points fuel i seen ≠ none) →
      l.foldl (fun acc i =>
        match acc with
        | none => none
        | some st2 => seqOuterStep points fuel st2 i) (some st) ≠ none := by
  intro l
  induction l with
  | nil => intro st h; simp
  | cons i t ih =>
    intro st h
    simp only [List.foldl_cons]
    cases hs : seqOuterStep points fuel st i with
    | some st' =>
      exact ih st' (fun j hj => h j (List.mem_cons_of_mem _ hj))
    | none => exact absurd hs (seqOuterStep_isSome points fuel st i (h i (List.mem_cons_self _ _)))

/-- C3 amended: sequence derivation terminates for every point collection
whose link chains all end within the fuel bound (in particular for every
acyclic link structure, taking the fuel to be the number of points plus
one); the visited set guards only the outer scan, so a cyclic link
structure makes the inner traversal loop forever
(`computeSequences_cycle_cex`). -/
theorem computeSequences_acyclic_terminates (points : List DataPoint) (fuel : Nat)
    (h : ∀ i, i < points.length →
        seqWalk points fuel i (List.replicate points.length false) ≠ none) :
    computeSequences points fuel ≠ none := by
  unfold computeSequences
  intro hcontra
  rw [Option.map_eq_none'] at hcontra
  exact seqFold_isSome points fuel (List.range points.length)
    ⟨List.replicate points.length false, [], []⟩
    (fun i hi seen hnone => by
      have hi' : i < points.length := List.mem_range.mp hi
      exact h i hi'
        ((seqWalk_eq_none_iff points fuel i seen (List.replicate points.length false)).mp hnone))
    hcontra

/-- Witness for `computeSequences_acyclic_terminates`: the spec's example
collection `{0 → 2, 1 → none, 2 → 3, 3 → none}` terminates. -/
theorem computeSequences_acyclic_terminates_witness :
    (∀ i, i < seqExamplePts.length →
        seqWalk seqExamplePts 5 i (List.replicate seqExamplePts.length false) ≠ none) ∧
    computeSequences seqExamplePts 5 ≠ none :=
  ⟨by decide, computeSequences_acyclic_terminates seqExamplePts 5 (by decide)⟩

/-- C2 counterexample: metadata whose record count (5) differs from the
point count (2) but matches neither explainable header shape is accepted —
`mergeMetadata` returns success and overwrites the points' metadata with
the first two records — contradicting "for every metadata payload whose
record count differs from the point count, mergeMetadata returns failure
and leaves the existing point metadata untouched". -/
theorem mergeMetadata_accepts_mismatch_cex :
    (mergeMetadata dsTwoPoints mdFiveRecords).1 = true ∧
    (mergeMetadata dsTwoPoints mdFiveRecords).2.points.map (fun dp => dp.metadata)
      = [[("label", some (.str "a"))], [("label", some (.str "b"))]] ∧
    dsTwoPoints.points.map (fun dp => dp.metadata)
      ≠ [[("label", some (.str "a"))], [("label", some (.str "b"))]] := by
  exact ⟨by decide, by decide, by decide⟩

/-- C2 amended: on a record-count mismatch, only the two explainable
header-row shapes are rejected — single-column metadata with one record
too many, and multi-column metadata with one record too few — returning
failure and leaving the dataset untouched; any other mismatch is accepted:
the metadata is stored and the records are assigned to points
positionally, truncated to the point count. -/
theorem mergeMetadata_policy {E : Type} (ds : DataSetState E) (md : SpriteAndMetadataInfo)
    (pi : List PointMetadata) (st : List ColumnStats)
    (hpi : md.pointsInfo = some pi) (hst : md.stats = some st)
    (hne : pi.length ≠ ds.points.length) :
    ((st.length = 1 ∧ pi.length = ds.points.length + 1) →
        mergeMetadata ds md = (false, ds)) ∧
    ((1 < st.length ∧ pi.length + 1 = ds.points.length) →
        mergeMetadata ds md = (false, ds)) ∧
    ((¬(st.length = 1 ∧ pi.length = ds.points.length + 1) ∧
      ¬(1 < st.length ∧ pi.length + 1 = ds.points.length)) →
        (mergeMetadata ds md).1 = true ∧
        (mergeMetadata ds md).2.points = assignMetadata ds.points pi ∧
        (mergeMetadata ds md).2.spriteAndMetadataInfo = some md) := by
  refine ⟨fun hc => ?_, fun hc => ?_, fun hc => ?_⟩
  · simp [mergeMetadata, hpi, hst, hne, hc.1, hc.2]
  · simp [mergeMetadata, hpi, hst, hne, hc.1, hc.2]
  · obtain ⟨h1, h2⟩ := hc
    simp [mergeMetadata, hpi, hst, hne, h1, h2]

/-- Witness for `mergeMetadata_policy`: the single-column-header shape
(three records, one column, two points) is rejected without change. -/
theorem mergeMetadata_policy_witness :
    mergeMetadata dsTwoPoints mdThreeRecords = (false, dsTwoPoints) :=
  (mergeMetadata_policy dsTwoPoints mdThreeRecords _ _ rfl rfl (by decide)).1 (by decide)

/-- C4 counterexample: `getSubset` shares each point's metadata record by
reference, so mutating the subset point's metadata record is visible
through the original point's reference — the subset's points are not deep
copies sharing no mutable state with the originals. -/
theorem getSubset_shares_metadata_cex :
    readMeta
        (writeMeta (getSubset subsetHeap subsetPts none).1
          ((getSubset subsetHeap subsetPts none).2.getD 0 default).metaRef
          [("label", some (.str "y"))])
        (subsetPts.getD 0 default).metaRef
      = [("label", some (.str "y"))] ∧
    readMeta subsetHeap (subsetPts.getD 0 default).metaRef
      = [("label", some (.str "x"))] := by
  exact ⟨by decide, by decide⟩

theorem freshPoints_getD (base : Nat) (l : List RDataPoint) (j : Nat) (hj : j < l.length) :
    (freshPoints base l).getD j default
      = ⟨(l.getD j default).index, base + j, (l.getD j default).metaRef, []⟩ := by
  induction l generalizing base j with
  | nil => cases hj
  | cons dp t ih =>
    cases j with
    | zero => simp [freshPoints]
    | succ n =>
      simp only [freshPoints, List.getD_cons_succ]
      rw [ih (base + 1) n (by simpa using hj)]
      congr 1
      omega

/-- C4 amended: `getSubset` copies each selected point with a freshly
allocated vector (so mutating a subset point's vector — as normalization
does — leaves every original point's vector unchanged) and an empty
projections cache, but keeps the same `index` and shares the metadata
record by reference with the original point. -/
theorem getSubset_copy_semantics (h : PHeap) (pts : List RDataPoint)
    (subset : Option (List Nat)) (j m : Nat) (v : List ℚ)
    (hj : j < (getSubsetSel pts subset).length)
    (hwf : (pts.getD m default).vecRef < h.vecs.length) :
    ((getSubset h pts subset).2.getD j default
        = ⟨((getSubsetSel pts subset).getD j default).index, h.vecs.length + j,
           ((getSubsetSel pts subset).getD j default).metaRef, []⟩) ∧
    (readVec (getSubset h pts subset).1 (h.vecs.length + j)
        = readVec h ((getSubsetSel pts subset).getD j default).vecRef) ∧
    (readVec
        (writeVec (getSubset h pts subset).1
          (((getSubset h pts subset).2.getD j default).vecRef) v)
        ((pts.getD m default).vecRef)
      = readVec h ((pts.getD m default).vecRef)) := by
  have hfresh := freshPoints_getD h.vecs.length (getSubsetSel pts subset) j hj
  refine ⟨hfresh, ?_, ?_⟩
  · show ((h.vecs ++ (getSubsetSel pts subset).map (fun dp => readVec h dp.vecRef)).getD
        (h.vecs.length + j) []) = _
    rw [List.getD_eq_getElem?_getD, List.getElem?_append_right (by omega)]
    have hidx : h.vecs.length + j - h.vecs.length = j := by omega
    rw [hidx, List.getElem?_map, List.getElem?_eq_getElem hj]
    simp [readVec, List.getD_eq_getElem?_getD, List.getElem?_eq_getElem hj]
  · have h2 : (getSubset h pts subset).2
        = freshPoints h.vecs.length (getSubsetSel pts subset) := rfl
    rw [h2, hfresh]
    show ((h.vecs ++ (getSubsetSel pts subset).map (fun dp => readVec h dp.vecRef)).set
        (h.vecs.length + j) v).getD ((pts.getD m default).vecRef) [] = _
    rw [List.getD_eq_getElem?_getD, List.getElem?_set_ne (by omega), List.getElem?_append]
    rw [if_pos hwf]
    simp [readVec, List.getD_eq_getElem?_getD]

/-- Witness for `getSubset_copy_semantics` on the one-point heap. -/
theorem getSubset_copy_semantics_witness :
    ((getSubset subsetHeap subsetPts none).2.getD 0 default
        = ⟨((getSubsetSel subsetPts none).getD 0 default).index,
           subsetHeap.vecs.length + 0,
           ((getSubsetSel subsetPts none).getD 0 default).metaRef, []⟩) ∧
    (readVec (getSubset subsetHeap subsetPts none).1 (subsetHeap.vecs.length + 0)
        = readVec subsetHeap ((getSubsetSel subsetPts none).getD 0 default).vecRef) ∧
    (readVec
        (writeVec (getSubset subsetHeap subsetPts none).1
          (((getSubset subsetHeap subsetPts none).2.getD 0 default).vecRef) [5, 5])
        ((subsetPts.getD 0 default).vecRef)
      = readVec subsetHeap ((subsetPts.getD 0 default).vecRef)) :=
  getSubset_copy_semantics subsetHeap subsetPts none 0 0 [5, 5]
    (by decide) (by decide)

/-- C5: when `stop()` has been called while a run is active (the engine
handle exists, whether Running or Paused), the next scheduled tick reaches
the terminal Stopped state: the step callback is invoked with "no
iteration" (`none`) exactly once on that tick, no further tick is
scheduled, the engine handle is discarded, `hasTSNERun` is cleared, the
projection values already written to the points remain, and a subsequent
`perturbTsne()` is a no-op. -/
theorem projectTSNE_stop_semantics {E : Type} (ops : EngineOps E) (tsneDim : Nat)
    (s : DataSetState E) (hrun : s.tsne.isSome = true) :
    (stepTick ops tsneDim (stopTSNE s)).2.1 = some none ∧
    (stepTick ops tsneDim (stopTSNE s)).2.2 = false ∧
    (stepTick ops tsneDim (stopTSNE s)).1.tsne = none ∧
    (stepTick ops tsneDim (stopTSNE s)).1.hasTSNERun = false ∧
    (stepTick ops tsneDim (stopTSNE s)).1.points = s.points ∧
    perturbTsne ops (stepTick ops tsneDim (stopTSNE s)).1
      = (stepTick ops tsneDim (stopTSNE s)).1 := by
  simp [stopTSNE, stepTick, perturbTsne]

/-- Witness for `projectTSNE_stop_semantics` on a running two-point
state. -/
theorem projectTSNE_stop_semantics_witness :
    (stepTick unitOps 2 (stopTSNE dsRunning)).2.1 = some none ∧
    (stepTick unitOps 2 (stopTSNE dsRunning)).2.2 = false ∧
    (stepTick unitOps 2 (stopTSNE dsRunning)).1.tsne = none ∧
    (stepTick unitOps 2 (stopTSNE dsRunning)).1.hasTSNERun = false ∧
    (stepTick unitOps 2 (stopTSNE dsRunning)).1.points = dsRunning.points ∧
    perturbTsne unitOps (stepTick unitOps 2 (stopTSNE dsRunning)).1
      = (stepTick unitOps 2 (stopTSNE dsRunning)).1 :=
  projectTSNE_stop_semantics unitOps 2 dsRunning (by decide)

/-- C6: on run start with a non-null neighbor cache, `projectTSNE` reuses
the cached neighbor table if and only if the K it was computed for
(`nearestK`) equals the newly requested `K = floor(3 * perplexity)`; on
reuse the cache and its K are unchanged, and otherwise the cache is
invalidated — the new K is recorded and the neighbor lists are recomputed
via the KNN engine on the sampled points. -/
theorem projectTSNE_cache_reuse {E : Type} (ops : EngineOps E) (gpuEnabled : Bool)
    (failPiece : Option Nat) (perplexity : ℚ) (s : DataSetState E)
    (h : s.nearest ≠ none) :
    ((projectTSNEStart ops gpuEnabled failPiece perplexity s).2 = true ↔
        ⌊3 * perplexity⌋ = s.nearestK) ∧
    ((projectTSNEStart ops gpuEnabled failPiece perplexity s).2 = true →
        (projectTSNEStart ops gpuEnabled failPiece perplexity s).1.nearest = s.nearest ∧
        (projectTSNEStart ops gpuEnabled failPiece perplexity s).1.nearestK = s.nearestK) ∧
    ((projectTSNEStart ops gpuEnabled failPiece perplexity s).2 = false →
        (projectTSNEStart ops gpuEnabled failPiece perplexity s).1.nearestK
            = ⌊3 * perplexity⌋ ∧
        (projectTSNEStart ops gpuEnabled failPiece perplexity s).1.nearest
            = some (knnCompute gpuEnabled failPiece
                ((s.shuffledDataIndices.take TSNE_SAMPLE_SIZE).map
                  (fun i => s.points.getD i default))
                (⌊3 * perplexity⌋).toNat)) := by
  obtain ⟨nr, hnr⟩ := Option.ne_none_iff_exists'.mp h
  by_cases hk : ⌊3 * perplexity⌋ = s.nearestK
  · simp [projectTSNEStart, hk, hnr]
  · simp [projectTSNEStart, hk, hnr]

/-- Witness for `projectTSNE_cache_reuse` on a state with an empty cached
table computed for K = 0. -/
theorem projectTSNE_cache_reuse_witness :
    ((projectTSNEStart unitOps false none 0 dsRunning).2 = true ↔
        ⌊(3 : ℚ) * 0⌋ = dsRunning.nearestK) ∧
    ((projectTSNEStart unitOps false none 0 dsRunning).2 = true →
        (projectTSNEStart unitOps false none 0 dsRunning).1.nearest = dsRunning.nearest ∧
        (projectTSNEStart unitOps false none 0 dsRunning).1.nearestK = dsRunning.nearestK) ∧
    ((projectTSNEStart unitOps false none 0 dsRunning).2 = false →
        (projectTSNEStart unitOps false none 0 dsRunning).1.nearestK = ⌊(3 : ℚ) * 0⌋ ∧
        (projectTSNEStart unitOps false none 0 dsRunning).1.nearest
            = some (knnCompute false none
                ((dsRunning.shuffledDataIndices.take TSNE_SAMPLE_SIZE).map
                  (fun i => dsRunning.points.getD i default))
                (⌊(3 : ℚ) * 0⌋).toNat)) :=
  projectTSNE_cache_reuse unitOps false none 0 dsRunning (by decide)
